import Mathlib

/-!
Verification of the docx batch-processing script (src/word_total.py) against
its natural-language specification. Each Python function the claims touch is
shallowly embedded as an executable Lean definition; text is modelled as
`List Char` (Python code points), file sizes as `Nat`, physical lengths in
centimetres as `ℚ`, and effectful steps (HTTP transfer, the filesystem, the
per-document pipeline) as explicit state passed through pure functions.
-/

namespace WordTotal

/-! ### Text primitives

Python string helpers used by `extract_name_from_document`:
`str.strip`, the regex character class `\s` (modelled over the six ASCII
whitespace characters; exotic Unicode space code points are outside the
model), slicing `[:50]`, and `re.sub` of a whitespace run by one space. -/

/-- Whitespace as Python classifies it, restricted to the ASCII range:
space, tab, newline, carriage return, vertical tab, form feed. -/
def pyIsSpace (c : Char) : Bool :=
  c = ' ' || c = '\t' || c = '\n' || c = '\r' || c = Char.ofNat 11 || c = Char.ofNat 12

/-- Removal of trailing whitespace characters (the right half of `str.strip`). -/
def dropTrailing : List Char → List Char
  | [] => []
  | c :: rest =>
    match dropTrailing rest with
    | [] => if pyIsSpace c then [] else [c]
    | r => c :: r

/-- Embedding of Python `str.strip()`: drop leading and trailing whitespace. -/
def pyStrip (l : List Char) : List Char :=
  dropTrailing (l.dropWhile pyIsSpace)

/-- Opening parenthesis in either the Latin or the CJK full-width form,
the two characters of the regex class in the pattern at word_total.py line 120. -/
def isOpenParen (c : Char) : Bool :=
  c = '(' || c = '（'

/-- Embedding of `re.sub(r'\s+', ' ', s)`: each maximal run of whitespace
characters is replaced by a single ASCII space. -/
def collapseWs : List Char → List Char
  | [] => []
  | [c] => if pyIsSpace c then [' '] else [c]
  | c1 :: c2 :: rest =>
    if pyIsSpace c1 && pyIsSpace c2 then collapseWs (c2 :: rest)
    else (if pyIsSpace c1 then ' ' else c1) :: collapseWs (c2 :: rest)

/-! ### Name extractor

Embedding of `extract_name_from_document` (word_total.py lines 107-129).
A document is represented by the list of its paragraphs' texts. The regex
search `^([^（\(]+?)[（\(]` succeeds exactly when the stripped first line
starts with a non-parenthesis character and contains an opening parenthesis;
the lazy group is then everything before the first opening parenthesis. -/

/-- Name extraction from the first paragraph of a document: `None` when there
is no paragraph or the first line strips to empty; the trimmed,
whitespace-collapsed text before the first opening parenthesis when the
anchored regex matches; the first 50 characters of the stripped line otherwise. -/
def extract_name_from_document (paragraphs : List (List Char)) : Option (List Char) :=
  match paragraphs with
  | [] => none
  | p :: _ =>
    let first_line := pyStrip p
    if first_line.isEmpty then none
    else
      let pre := first_line.takeWhile (fun c => !isOpenParen c)
      if 0 < pre.length ∧ pre.length < first_line.length then
        some (collapseWs (pyStrip pre))
      else
        some (first_line.take 50)

example : extract_name_from_document ["Alan Turing（Alan Turing）".data] =
    some "Alan Turing".data := by decide

example : extract_name_from_document ["  Just A Title  ".data] =
    some "Just A Title".data := by decide

example : extract_name_from_document ["   ".data] = none := by decide

example : extract_name_from_document [] = none := by decide

/-! ### Page number injector

Embedding of `add_dynamic_page_numbers` (word_total.py lines 72-103). A
footer is the list of its paragraphs; a run records whether it carries the
dynamic PAGE field construct (the fldChar begin / instrText "PAGE" /
fldChar end triple appended to the run's XML element). `paragraph.clear()`
keeps the paragraph but removes its runs; the injector clears every footer
paragraph, then adds one field run to the first paragraph (creating one if
the footer had none). -/

/-- Run inside a footer paragraph; `isPageField` marks the run that carries
the dynamic PAGE field construct. -/
structure FooterRun where
  isPageField : Bool
  deriving DecidableEq

/-- Footer paragraph: its alignment (`centered`) and its runs. -/
structure FooterPara where
  centered : Bool
  runs : List FooterRun
  deriving DecidableEq

/-- Footer of one document section, a list of paragraphs. -/
structure Footer where
  paras : List FooterPara
  deriving DecidableEq

/-- Run created by the injector: styled and holding the PAGE field construct. -/
def pageFieldRun : FooterRun := ⟨true⟩

/-- Action of `add_dynamic_page_numbers` on one section's footer: clear every
paragraph's content, then append the field run to the first paragraph, adding
a paragraph first when none exists. -/
def injectPageNumber (f : Footer) : Footer :=
  let cleared := f.paras.map fun p => { p with runs := [] }
  match cleared with
  | [] => ⟨[⟨true, [pageFieldRun]⟩]⟩
  | p :: rest => ⟨{ p with centered := true, runs := p.runs ++ [pageFieldRun] } :: rest⟩

/-- Embedding of `add_dynamic_page_numbers`: a document's sections are the
list of their footers, and every section is treated. -/
def add_dynamic_page_numbers (secs : List Footer) : List Footer :=
  secs.map injectPageNumber

/-- Number of dynamic page-number field constructs present in a footer. -/
def countPageFields (f : Footer) : Nat :=
  (f.paras.map fun p => (p.runs.filter (·.isPageField)).length).sum

/-! ### Image download

Embedding of `download_image` (word_total.py lines 183-208). The transport
and the filesystem are abstracted into one behaviour record: whether
`requests.get` raised, the HTTP status, the sizes of the non-empty chunks
written to the open file before any mid-transfer exception, and whether such
an exception (transport or filesystem) occurred. The disk state at the
destination path is `none` (absent) or `some n` (file of `n` bytes). -/

/-- Observable behaviour of one download attempt. -/
structure DownloadBehavior where
  connects : Bool
  status : Nat
  chunkSizes : List Nat
  streamRaises : Bool
  deriving DecidableEq

/-- Embedding of `download_image`: returns the reported success flag and the
disk state at the destination path after the call. On connection failure or
non-200 status the file is never opened; otherwise the file is created and
the chunks written, a mid-transfer exception is caught leaving the partial
file in place, an undersized complete file is removed, and a large-enough
complete file is accepted. -/
def download_image (b : DownloadBehavior) (disk : Option Nat) : Bool × Option Nat :=
  if !b.connects then (false, disk)
  else if b.status ≠ 200 then (false, disk)
  else
    let written := b.chunkSizes.sum
    if b.streamRaises then (false, some written)
    else if written > 2048 then (true, some written)
    else (false, none)

example : download_image ⟨true, 200, [1000], false⟩ none = (false, none) := by decide

example : download_image ⟨true, 200, [5000], false⟩ none = (true, some 5000) := by decide

/-! ### Image compositor sizing

Embedding of the sizing policy of `insert_image_into_document`
(word_total.py lines 210-262). Physical lengths are rationals in
centimetres; image metadata, when Pillow can obtain it, is the pixel width
and the DPI. -/

/-- Pixel-to-centimetre conversion `img_width_px * 2.54 / dpi`. -/
def imgWidthCm (px : ℕ) (dpi : ℚ) : ℚ :=
  (px : ℚ) * (254 / 100) / dpi

/-- Width, in centimetres, at which the compositor embeds the picture:
`usable` is the page width minus both margins; metadata `some (px, dpi)`
follows the bound chain of the source (above 70% of usable width scale to
exactly that bound, below 5 cm scale to exactly 5 cm, otherwise natural
width), and on `none` the fallback is half the usable width. -/
def targetWidthCm (usable : ℚ) (meta : Option (ℕ × ℚ)) : ℚ :=
  match meta with
  | some (px, dpi) =>
    let w := imgWidthCm px dpi
    let maxw := usable * (7 / 10)
    if w > maxw then maxw
    else if w < 5 then 5
    else w
  | none => usable * (1 / 2)

/-- Embedded picture width computed from the section geometry as the source
does: usable width is `page_width - left_margin - right_margin`. -/
def insert_image_width (pageW lm rm : ℚ) (meta : Option (ℕ × ℚ)) : ℚ :=
  targetWidthCm (pageW - lm - rm) meta

/-! ### Image filename

Embedding of the filename derivation at word_total.py lines 330-331:
`re.sub(r'[^\w一-龥\-]', '_', person_name)` followed by `".jpg"`.
Python's Unicode `\w` is, per its documentation, exactly the alphanumeric
characters (in the sense of `str.isalnum`) together with the underscore; the
Unicode alphanumeric classification is kept abstract as a parameter. -/

/-- CJK ideograph range `一-龥` of the source pattern. -/
def cjkIdeograph (c : Char) : Bool :=
  0x4e00 ≤ c.toNat && c.toNat ≤ 0x9fa5

/-- Python `\w` for `str` patterns: alphanumeric or underscore, with the
alphanumeric classification `isAlnum` abstract. -/
def pyWordChar (isAlnum : Char → Bool) (c : Char) : Bool :=
  isAlnum c || c = '_'

/-- Embedding of the `safe_name` substitution: a character is kept when it
matches the class `[\w一-龥\-]` and replaced by an underscore
otherwise. -/
def safe_name (isAlnum : Char → Bool) (name : List Char) : List Char :=
  name.map fun c =>
    if pyWordChar isAlnum c || cjkIdeograph c || c = '-' then c else '_'

/-- Embedding of the image filename derivation: sanitised name plus the
fixed ".jpg" extension. -/
def image_filename (isAlnum : Char → Bool) (name : List Char) : List Char :=
  safe_name isAlnum name ++ ".jpg".data

/-- Filename derivation as the specification words it: replace each character
that is not alphanumeric, underscore, hyphen, or a CJK ideograph with an
underscore, then append the fixed image extension. -/
def spec_image_filename (isAlnum : Char → Bool) (name : List Char) : List Char :=
  (name.map fun c =>
    if !(isAlnum c || c = '_' || c = '-' || cjkIdeograph c) then '_' else c) ++ ".jpg".data

/-! ### Batch orchestrator

Embedding of `process_document_collection` (word_total.py lines 282-349).
The environment's behaviour for one document is abstracted into a record:
which stage of the `try` body raises (open, styling, page numbers, name
extraction, save — the message the exception carries), what the extractor
returns, whether the search yields a URL, and whether download and insertion
succeed. `search_image_on_bing`, `download_image` and
`insert_image_into_document` catch their own exceptions and return a value,
so they never raise past the document boundary. -/

/-- Behaviour of the environment while one document is processed. A `some`
in an `Err` field is the exception message raised at that stage. -/
structure DocBehavior where
  filename : String
  openErr : Option String
  styleErr : Option String
  pageErr : Option String
  extractErr : Option String
  extractedName : Option (List Char)
  searchUrl : Option String
  downloadOk : Bool
  insertOk : Bool
  saveErr : Option String
  deriving DecidableEq

/-- Outcome of the `try` body for one document: whether the found / inserted
counters were incremented before the body ended, the exception message when
one was raised, and the name stored in the file record. -/
structure DocOutcome where
  foundInc : Bool
  insertedInc : Bool
  err : Option String
  recName : Option (List Char)
  deriving DecidableEq

/-- Per-document record as built by the orchestrator. -/
structure FileRecord where
  filename : String
  errors : List String
  chinese_name : Option (List Char)
  deriving DecidableEq

/-- Statistics dictionary accumulated by the orchestrator. -/
structure BatchStats where
  total : Nat
  success : Nat
  images_found : Nat
  images_inserted : Nat
  backup : Option String
  failed : List FileRecord
  deriving DecidableEq

/-- Control flow of the `try` body at word_total.py lines 314-343: the first
raising stage aborts the body; a truthy extracted name is recorded and image
search, download and insertion run before the save, so their counter
increments survive a failing save. -/
def runDoc (b : DocBehavior) : DocOutcome :=
  match b.openErr with
  | some e => ⟨false, false, some e, none⟩
  | none =>
  match b.styleErr with
  | some e => ⟨false, false, some e, none⟩
  | none =>
  match b.pageErr with
  | some e => ⟨false, false, some e, none⟩
  | none =>
  match b.extractErr with
  | some e => ⟨false, false, some e, none⟩
  | none =>
    let recName :=
      match b.extractedName with
      | some n => if n.isEmpty then none else some n
      | none => none
    let found := recName.isSome && b.searchUrl.isSome && b.downloadOk
    let inserted := found && b.insertOk
    ⟨found, inserted, b.saveErr, recName⟩

/-- One iteration of the document loop: bump `total`, run the body, then
either bump `success` or append the failure record whose single error string
carries the caught exception message. -/
def stepStats (s : BatchStats) (b : DocBehavior) : BatchStats :=
  let o := runDoc b
  { total := s.total + 1
    success := s.success + (if o.err.isNone then 1 else 0)
    images_found := s.images_found + (if o.foundInc then 1 else 0)
    images_inserted := s.images_inserted + (if o.insertedInc then 1 else 0)
    backup := s.backup
    failed := s.failed ++
      match o.err with
      | some e => [⟨b.filename, ["处理异常: " ++ e], o.recName⟩]
      | none => [] }

/-- Statistics dictionary as initialised at word_total.py lines 296-303. -/
def initStats (backup : Option String) : BatchStats :=
  ⟨0, 0, 0, 0, backup, []⟩

/-- Document loop of the orchestrator over the enumerated documents. -/
def runBatch (backup : Option String) (docs : List DocBehavior) : BatchStats :=
  docs.foldl stepStats (initStats backup)

/-- Return value of the orchestrator: the early error dictionary
(with its empty `failed` list) or the statistics. -/
inductive BatchResult
  | error (msg : String) (failed : List FileRecord)
  | ok (stats : BatchStats)
  deriving DecidableEq

/-- Externally visible side effects of one orchestrator call. -/
structure BatchEffects where
  backupTaken : Bool
  docsOpened : Nat
  deriving DecidableEq

/-- Embedding of `process_document_collection`: an inexistent source folder
returns the error dictionary before the backup step and before any document
is touched; otherwise the backup is taken when enabled and every enumerated
document goes through one loop iteration. -/
def process_document_collection (folderExists : Bool) (enableBackup : Bool)
    (backupPath : String) (docs : List DocBehavior) : BatchResult × BatchEffects :=
  if !folderExists then (.error "文件夹不存在" [], ⟨false, 0⟩)
  else
    let backup := if enableBackup then some backupPath else none
    (.ok (runBatch backup docs), ⟨enableBackup, docs.length⟩)

/-! ### Backup and document enumeration

Embedding of the interaction between `backup_documents` (word_total.py
lines 266-280) and the enumeration `folder_path.glob("*.docx")` at line 306.
The source folder's content is a set of relative paths, each a list of name
components; the backup step adds the subfolder `backup_<timestamp>` and one
depth-two copy of every matching document. `glob` with the non-recursive
pattern `*.docx` matches exactly the depth-one entries whose name ends in
".docx". -/

/-- Name filter of the glob pattern `*.docx`: the name ends in ".docx". -/
def endsWithDocx (name : String) : Bool :=
  ".docx".data.isSuffixOf name.data

/-- Embedding of `folder_path.glob("*.docx")`: depth-one entries whose name
matches the pattern, in folder order. -/
def globDocx (paths : List (List String)) : List (List String) :=
  paths.filter fun p =>
    match p with
    | [n] => endsWithDocx n
    | _ => false

/-- Folder name chosen by `backup_documents` for the snapshot. -/
def backupFolderName (timestamp : String) : String :=
  "backup_" ++ timestamp

/-- Filesystem effect of `backup_documents` followed by the loop's
enumeration view: the folder now also contains the backup directory entry
and, inside it, a copy of every document that matched the glob. -/
def backup_documents (paths : List (List String)) (backupName : String) :
    List (List String) :=
  paths ++ [[backupName]] ++ (globDocx paths).map fun p => backupName :: p

/-! ### Lemmas about the orchestrator -/

/-- Invariant the statistics dictionary maintains across loop iterations. -/
def statsInvariant (s : BatchStats) : Prop :=
  s.success + s.failed.length = s.total ∧
  s.images_inserted ≤ s.images_found ∧
  s.images_found ≤ s.total ∧
  s.failed.all (fun r => !r.errors.isEmpty) = true

theorem runDoc_inserted_imp_found (b : DocBehavior) :
    (runDoc b).insertedInc = true → (runDoc b).foundInc = true := by
  unfold runDoc
  cases b.openErr <;> cases b.styleErr <;> cases b.pageErr <;> cases b.extractErr <;>
    simp_all [Bool.and_eq_true]

theorem stepStats_invariant (s : BatchStats) (b : DocBehavior)
    (h : statsInvariant s) : statsInvariant (stepStats s b) := by
  obtain ⟨h1, h2, h3, h4⟩ := h
  unfold stepStats
  refine ⟨?_, ?_, ?_, ?_⟩
  · cases herr : (runDoc b).err <;> simp [herr] <;> omega
  · have himp := runDoc_inserted_imp_found b
    cases hins : (runDoc b).insertedInc <;> cases hf : (runDoc b).foundInc <;>
      simp only [hins, hf, if_true, if_false, Bool.true_eq_false, Bool.false_eq_true,
        reduceIte]
    · omega
    · omega
    · exact absurd (himp hins) (by simp [hf])
    · omega
  · cases hf : (runDoc b).foundInc <;> simp [hf] <;> omega
  · cases herr : (runDoc b).err <;> simp_all [List.all_append]

theorem foldl_stepStats_invariant (docs : List DocBehavior) :
    ∀ s : BatchStats, statsInvariant s → statsInvariant (docs.foldl stepStats s) := by
  induction docs with
  | nil => exact fun s h => h
  | cons b rest ih => exact fun s h => ih _ (stepStats_invariant s b h)

theorem foldl_stepStats_total (docs : List DocBehavior) :
    ∀ s : BatchStats, (docs.foldl stepStats s).total = s.total + docs.length := by
  induction docs with
  | nil => intro s; simp
  | cons b rest ih =>
    intro s
    rw [List.foldl_cons, ih]
    simp [stepStats]
    omega

theorem initStats_invariant (backup : Option String) : statsInvariant (initStats backup) := by
  refine ⟨rfl, le_refl _, le_refl _, rfl⟩

/-- C1. For every run of the batch orchestrator over an existing source
folder, the returned statistics satisfy `success + length failed = total`
and `images_inserted ≤ images_found ≤ total`, where `total` counts every
enumerated document, `success` counts documents saved without error, and
every record of `failed` has a non-empty error list. -/
theorem batch_statistics_invariant (eb : Bool) (bp : String) (docs : List DocBehavior) :
    (process_document_collection true eb bp docs).1 =
      BatchResult.ok (runBatch (if eb then some bp else none) docs) ∧
    (runBatch (if eb then some bp else none) docs).total = docs.length ∧
    (runBatch (if eb then some bp else none) docs).success +
      (runBatch (if eb then some bp else none) docs).failed.length =
      (runBatch (if eb then some bp else none) docs).total ∧
    (runBatch (if eb then some bp else none) docs).images_inserted ≤
      (runBatch (if eb then some bp else none) docs).images_found ∧
    (runBatch (if eb then some bp else none) docs).images_found ≤
      (runBatch (if eb then some bp else none) docs).total ∧
    ((runBatch (if eb then some bp else none) docs).failed.all
      fun r => !r.errors.isEmpty) = true := by
  have hinv := foldl_stepStats_invariant docs (initStats (if eb then some bp else none))
    (initStats_invariant _)
  have htot := foldl_stepStats_total docs (initStats (if eb then some bp else none))
  obtain ⟨h1, h2, h3, h4⟩ := hinv
  refine ⟨rfl, ?_, h1, h2, h3, h4⟩
  simpa [initStats] using htot

/-! ### Lemmas about the page number injector -/

theorem sum_filter_cleared (rest : List FooterPara) :
    ((rest.map fun q => { q with runs := ([] : List FooterRun) }).map
      fun q => (q.runs.filter (·.isPageField)).length).sum = 0 := by
  induction rest with
  | nil => rfl
  | cons a l ih => simpa using ih

theorem countPageFields_cons (p : FooterPara) (rest : List FooterPara) :
    countPageFields ⟨p :: rest⟩ =
      (p.runs.filter (·.isPageField)).length + countPageFields ⟨rest⟩ := rfl

theorem countPageFields_injectPageNumber (f : Footer) :
    countPageFields (injectPageNumber f) = 1 := by
  cases hp : f.paras with
  | nil =>
    have h1 : injectPageNumber f = ⟨[⟨true, [pageFieldRun]⟩]⟩ := by
      unfold injectPageNumber
      rw [hp]
      rfl
    rw [h1]
    rfl
  | cons p rest =>
    have h1 : injectPageNumber f =
        ⟨⟨true, [pageFieldRun]⟩ :: rest.map fun q => { q with runs := ([] : List FooterRun) }⟩ := by
      unfold injectPageNumber
      rw [hp]
      rfl
    have h2 : countPageFields ⟨rest.map fun q => { q with runs := ([] : List FooterRun) }⟩ = 0 :=
      sum_filter_cleared rest
    rw [h1, countPageFields_cons, h2]
    rfl

/-- C4. Invoking the page-number injector twice in succession leaves exactly
one dynamic page-number field construct in every section's footer, because
each invocation clears existing footer paragraph content before inserting. -/
theorem page_number_injection_idempotent (secs : List Footer) :
    ((add_dynamic_page_numbers (add_dynamic_page_numbers secs)).all
      fun f => countPageFields f == 1) = true := by
  rw [List.all_eq_true]
  intro f hf
  simp only [add_dynamic_page_numbers, List.mem_map] at hf
  obtain ⟨g, _, rfl⟩ := hf
  simp [countPageFields_injectPageNumber]

/-- C6. When the source folder does not exist the orchestrator returns the
error dictionary immediately: the backup snapshot is not taken, no document
is opened, and the statistics are never built. -/
theorem missing_folder_early_error (eb : Bool) (bp : String) (docs : List DocBehavior) :
    process_document_collection false eb bp docs =
      (BatchResult.error "文件夹不存在" [], ⟨false, 0⟩) := rfl

/-! ### Lemmas about the text primitives -/

theorem dropTrailing_ne_nil_of_head (c : Char) (r : List Char)
    (hc : pyIsSpace c = false) :
    dropTrailing (c :: r) ≠ [] ∧ (dropTrailing (c :: r)).headD 'x' = c := by
  unfold dropTrailing
  cases h : dropTrailing r with
  | nil => simp [hc]
  | cons a l => simp

theorem dropTrailing_headD (l : List Char) (h : dropTrailing l ≠ []) :
    (dropTrailing l).headD 'x' = l.headD 'x' := by
  cases l with
  | nil => rfl
  | cons c r =>
    unfold dropTrailing at h ⊢
    cases hr : dropTrailing r with
    | nil =>
      rw [hr] at h
      cases hc : pyIsSpace c <;> simp [hc] at h ⊢
    | cons a t => simp

theorem dropTrailing_getLastD (l : List Char) (h : dropTrailing l ≠ []) :
    pyIsSpace ((dropTrailing l).getLastD 'x') = false := by
  induction l with
  | nil => exact absurd rfl h
  | cons c r ih =>
    unfold dropTrailing at h ⊢
    cases hr : dropTrailing r with
    | nil =>
      rw [hr] at h
      cases hc : pyIsSpace c
      · simp [hc]
      · simp [hc] at h
    | cons a t =>
      rw [hr] at ih
      have := ih (by simp)
      rw [List.getLastD_cons]
      rw [List.getLastD_cons] at this ⊢
      exact this

theorem dropWhile_head_not (q : Char → Bool) (l : List Char) (a : Char) (t : List Char)
    (h : l.dropWhile q = a :: t) : q a = false := by
  induction l with
  | nil => simp at h
  | cons c r ih =>
    rw [List.dropWhile_cons] at h
    by_cases hc : q c = true
    · rw [if_pos hc] at h
      exact ih h
    · rw [if_neg hc] at h
      injection h with h1 _
      subst h1
      simp [Bool.not_eq_true] at hc
      exact hc

theorem pyStrip_headD (l : List Char) (h : pyStrip l ≠ []) :
    pyIsSpace ((pyStrip l).headD 'x') = false := by
  unfold pyStrip at h ⊢
  rw [dropTrailing_headD _ h]
  cases hd : l.dropWhile pyIsSpace with
  | nil =>
    rw [hd] at h
    exact absurd rfl h
  | cons a t =>
    have ha : pyIsSpace a = false := dropWhile_head_not pyIsSpace l a t hd
    simpa using ha

theorem pyStrip_getLastD (l : List Char) (h : pyStrip l ≠ []) :
    pyIsSpace ((pyStrip l).getLastD 'x') = false := by
  unfold pyStrip at h ⊢
  exact dropTrailing_getLastD _ h

theorem getLastD_cons_eq (c : Char) (r : List Char) (d1 d2 : Char) :
    (c :: r).getLastD d1 = (c :: r).getLastD d2 := by
  rw [List.getLastD_cons, List.getLastD_cons]

theorem getLastD_cons_of_ne_nil (y : Char) (L : List Char) (hL : L ≠ []) (d : Char) :
    (y :: L).getLastD d = L.getLastD d := by
  cases L with
  | nil => exact absurd rfl hL
  | cons a t => rw [List.getLastD_cons, getLastD_cons_eq]

theorem collapseWs_cons_not_space (c : Char) (r : List Char) (hc : pyIsSpace c = false) :
    collapseWs (c :: r) = c :: collapseWs r := by
  cases r with
  | nil =>
    show (if pyIsSpace c = true then [' '] else [c]) = c :: collapseWs []
    rw [hc]
    simp [collapseWs]
  | cons c2 r2 =>
    show (if (pyIsSpace c && pyIsSpace c2) = true then collapseWs (c2 :: r2)
        else (if pyIsSpace c = true then ' ' else c) :: collapseWs (c2 :: r2)) =
      c :: collapseWs (c2 :: r2)
    rw [hc]
    simp

theorem collapseWs_getLastD (l : List Char) :
    l ≠ [] → pyIsSpace (l.getLastD 'x') = false →
    collapseWs l ≠ [] ∧ (collapseWs l).getLastD 'x' = l.getLastD 'x' := by
  induction l with
  | nil => exact fun h _ => absurd rfl h
  | cons c r ih =>
    intro _ hlast
    cases r with
    | nil =>
      have hc : pyIsSpace c = false := by simpa using hlast
      unfold collapseWs
      rw [hc]
      simp
    | cons c2 r2 =>
      have hlast' : pyIsSpace ((c2 :: r2).getLastD 'x') = false := by
        rw [getLastD_cons_of_ne_nil c (c2 :: r2) (by simp) 'x'] at hlast
        exact hlast
      obtain ⟨ihne, ihlast⟩ := ih (by simp) hlast'
      unfold collapseWs
      by_cases h12 : (pyIsSpace c && pyIsSpace c2) = true
      · rw [if_pos h12]
        refine ⟨ihne, ?_⟩
        rw [ihlast, getLastD_cons_of_ne_nil c (c2 :: r2) (by simp) 'x']
      · rw [if_neg h12]
        refine ⟨by simp, ?_⟩
        rw [getLastD_cons_of_ne_nil _ _ ihne 'x', ihlast,
          getLastD_cons_of_ne_nil c (c2 :: r2) (by simp) 'x']

theorem takeWhile_headD (q : Char → Bool) (l : List Char)
    (h : 0 < (l.takeWhile q).length) : (l.takeWhile q).headD 'x' = l.headD 'x' := by
  cases l with
  | nil => simp at h
  | cons c r =>
    rw [List.takeWhile_cons] at h ⊢
    by_cases hc : q c = true
    · rw [if_pos hc]
      rfl
    · rw [if_neg hc] at h
      simp at h

theorem takeWhile_length_lt_of_any (q : Char → Bool) (l : List Char)
    (h : l.any q = true) : (l.takeWhile fun c => !q c).length < l.length := by
  induction l with
  | nil => simp at h
  | cons c r ih =>
    rw [List.takeWhile_cons]
    by_cases hc : q c = true
    · simp [hc]
    · have hr : r.any q = true := by
        rw [List.any_cons] at h
        simp [hc] at h
        exact List.any_eq_true.mpr h
      have hqc : (!q c) = true := by simp [Bool.not_eq_true] at hc; simp [hc]
      rw [if_pos hqc]
      simpa using ih hr

theorem takeWhile_eq_self_of_any_false (q : Char → Bool) (l : List Char)
    (h : l.any q = false) : (l.takeWhile fun c => !q c) = l := by
  induction l with
  | nil => rfl
  | cons c r ih =>
    rw [List.any_cons, Bool.or_eq_false_iff] at h
    rw [List.takeWhile_cons, if_pos (by simp [h.1]), ih h.2]

theorem pyStrip_eq_nil_of_all_space (l : List Char) (h : l.all pyIsSpace = true) :
    pyStrip l = [] := by
  have hd : l.dropWhile pyIsSpace = [] := by
    rw [List.dropWhile_eq_nil_iff]
    intro x hx
    exact List.all_eq_true.mp h x hx
  unfold pyStrip
  rw [hd]
  rfl

theorem dropTrailing_sublist (l : List Char) : List.Sublist (dropTrailing l) l := by
  induction l with
  | nil => exact List.Sublist.refl []
  | cons c r ih =>
    unfold dropTrailing
    cases hr : dropTrailing r with
    | nil =>
      by_cases hc : pyIsSpace c = true
      · rw [if_pos hc]
        exact List.nil_sublist _
      · rw [if_neg hc]
        exact List.Sublist.cons₂ c (List.nil_sublist r)
    | cons a t =>
      rw [hr] at ih
      exact List.Sublist.cons₂ c ih

theorem pyStrip_sublist (l : List Char) : List.Sublist (pyStrip l) l :=
  (dropTrailing_sublist _).trans (List.dropWhile_sublist _)

theorem pyStrip_any_false (q : Char → Bool) (l : List Char) (h : l.any q = false) :
    (pyStrip l).any q = false := by
  by_contra hc
  rw [Bool.not_eq_false, List.any_eq_true] at hc
  obtain ⟨x, hx, hqx⟩ := hc
  have hxl : x ∈ l := (pyStrip_sublist l).subset hx
  have := List.any_eq_true.mpr ⟨x, hxl, hqx⟩
  rw [h] at this
  exact Bool.false_ne_true this

theorem pyStrip_ne_nil (l : List Char) (h : l.all pyIsSpace = false) : pyStrip l ≠ [] := by
  have hne : l.dropWhile pyIsSpace ≠ [] := by
    intro hnil
    rw [List.dropWhile_eq_nil_iff] at hnil
    have hall : l.all pyIsSpace = true := List.all_eq_true.mpr fun x hx => hnil x hx
    rw [h] at hall
    exact Bool.false_ne_true hall
  cases hd : l.dropWhile pyIsSpace with
  | nil => exact absurd hd hne
  | cons a t =>
    have ha := dropWhile_head_not pyIsSpace l a t hd
    unfold pyStrip
    rw [hd]
    exact (dropTrailing_ne_nil_of_head a t ha).1

/-- Branch structure of the extractor on a non-empty paragraph list, with the
two `let` bindings of the source expanded. -/
theorem extract_cons_eq (p : List Char) (ps : List (List Char)) :
    extract_name_from_document (p :: ps) =
      (if (pyStrip p).isEmpty = true then none
       else if 0 < ((pyStrip p).takeWhile fun c => !isOpenParen c).length ∧
           ((pyStrip p).takeWhile fun c => !isOpenParen c).length < (pyStrip p).length then
         some (collapseWs (pyStrip ((pyStrip p).takeWhile fun c => !isOpenParen c)))
       else some ((pyStrip p).take 50)) := rfl

/-! ### Claim C2: name before the first opening parenthesis -/

/-- C2 counterexample. For a first paragraph whose stripped text starts with
the opening parenthesis ("（Alan Turing）"), the text contains an opening
parenthesis, yet the extractor does not return the (empty) trimmed,
whitespace-collapsed text before the first parenthesis: the anchored regex
fails, and the extractor returns the whole 50-character-truncated line. -/
theorem extract_name_paren_at_start :
    ((pyStrip "（Alan Turing）".data).any isOpenParen) = true ∧
    extract_name_from_document ["（Alan Turing）".data] ≠
      some (collapseWs (pyStrip ((pyStrip "（Alan Turing）".data).takeWhile
        fun c => !isOpenParen c))) ∧
    extract_name_from_document ["（Alan Turing）".data] =
      some "（Alan Turing）".data := by decide

/-- C2 amended. For every document whose stripped first-paragraph text does
not start with an opening parenthesis but contains one (Latin or CJK
full-width), the extractor returns everything before the first such
parenthesis, trimmed and with internal whitespace runs collapsed to a single
space; in particular "Alan Turing（Alan Turing）" yields "Alan Turing". -/
theorem extract_name_before_paren (p : List Char) (ps : List (List Char))
    (h0 : pyStrip p ≠ [])
    (h1 : isOpenParen ((pyStrip p).headD 'x') = false)
    (h2 : (pyStrip p).any isOpenParen = true) :
    extract_name_from_document (p :: ps) =
      some (collapseWs (pyStrip ((pyStrip p).takeWhile fun c => !isOpenParen c))) := by
  have hpre : 0 < ((pyStrip p).takeWhile fun c => !isOpenParen c).length := by
    cases hl : pyStrip p with
    | nil => exact absurd hl h0
    | cons a t =>
      have ha : isOpenParen a = false := by
        rw [hl] at h1
        simpa using h1
      rw [List.takeWhile_cons, if_pos (by simp [ha])]
      simp
  have hlt := takeWhile_length_lt_of_any isOpenParen (pyStrip p) h2
  rw [extract_cons_eq, if_neg (by simpa [List.isEmpty_iff] using h0), if_pos ⟨hpre, hlt⟩]

/-- Witness for the amended C2 theorem at the spec's example: the extractor
maps "Alan Turing（Alan Turing）" to "Alan Turing". -/
theorem extract_name_before_paren_witness :
    extract_name_from_document ["Alan Turing（Alan Turing）".data] =
      some "Alan Turing".data := by
  rw [extract_name_before_paren "Alan Turing（Alan Turing）".data []
    (by decide) (by decide) (by decide)]
  decide

/-! ### Claim C5: null cases and truncation -/

/-- C5. The extractor returns null on a document with no paragraphs and on a
first paragraph that is empty or whitespace-only; on a first line containing
no opening parenthesis it returns the stripped first-line text truncated to
its first 50 characters. -/
theorem extract_name_null_and_truncation :
    extract_name_from_document [] = none ∧
    (∀ (p : List Char) (ps : List (List Char)), p.all pyIsSpace = true →
      extract_name_from_document (p :: ps) = none) ∧
    (∀ (p : List Char) (ps : List (List Char)), p.any isOpenParen = false →
      p.all pyIsSpace = false →
      extract_name_from_document (p :: ps) = some ((pyStrip p).take 50)) := by
  refine ⟨rfl, ?_, ?_⟩
  · intro p ps hall
    have h0 : pyStrip p = [] := pyStrip_eq_nil_of_all_space p hall
    rw [extract_cons_eq, if_pos (by simp [h0])]
  · intro p ps hnoparen hnotall
    have hne := pyStrip_ne_nil p hnotall
    have hany : (pyStrip p).any isOpenParen = false := pyStrip_any_false _ p hnoparen
    have heq : ((pyStrip p).takeWhile fun c => !isOpenParen c) = pyStrip p :=
      takeWhile_eq_self_of_any_false isOpenParen _ hany
    rw [extract_cons_eq, if_neg (by simpa [List.isEmpty_iff] using hne), if_neg ?_]
    intro hcond
    rw [heq] at hcond
    exact lt_irrefl _ hcond.2

/-- Witness for the C5 theorem at the spec's examples: a whitespace-only
first paragraph yields null, and "  Just A Title  " yields "Just A Title". -/
theorem extract_name_null_and_truncation_witness :
    extract_name_from_document ["   ".data] = none ∧
    extract_name_from_document ["  Just A Title  ".data] = some "Just A Title".data := by
  constructor
  · exact extract_name_null_and_truncation.2.1 "   ".data [] (by decide)
  · rw [extract_name_null_and_truncation.2.2 "  Just A Title  ".data []
      (by decide) (by decide)]
    decide

/-! ### Claim C9: shape of a non-null result -/

/-- C9 counterexample. A parenthesis-free stripped first line of 51
characters whose 50th character is a space ("aaa…a b") makes the extractor
return a non-null name that ends in a space: truncation to 50 characters can
leave trailing whitespace, refuting the claim that every non-null result has
no trailing whitespace. -/
theorem extract_name_trailing_space :
    extract_name_from_document [List.replicate 49 'a' ++ [' ', 'b']] =
      some (List.replicate 49 'a' ++ [' ']) ∧
    pyIsSpace ((List.replicate 49 'a' ++ [' ']).getLastD 'x') = true ∧
    List.replicate 49 'a' ++ [' '] ≠ [] := by decide

/-- C9 amended. Every non-null extractor result is a non-empty string with
no leading whitespace; it also has no trailing whitespace whenever the
stripped first line is at most 50 characters long or the parenthesis branch
of the extractor applies — trailing whitespace can survive only through the
50-character truncation of a longer line on which the anchored parenthesis
match fails, i.e. one that contains no opening parenthesis or starts with
one. -/
theorem extract_name_result_trimmed (p : List Char) (ps : List (List Char)) (l : List Char)
    (h : extract_name_from_document (p :: ps) = some l) :
    l ≠ [] ∧ pyIsSpace (l.headD 'x') = false ∧
    ((pyStrip p).length ≤ 50 ∨
      0 < ((pyStrip p).takeWhile fun c => !isOpenParen c).length ∧
        ((pyStrip p).takeWhile fun c => !isOpenParen c).length < (pyStrip p).length →
      pyIsSpace (l.getLastD 'x') = false) := by
  rw [extract_cons_eq] at h
  by_cases hemp : (pyStrip p).isEmpty = true
  · rw [if_pos hemp] at h
    exact absurd h (by simp)
  · rw [if_neg hemp] at h
    have hne : pyStrip p ≠ [] := by simpa [List.isEmpty_iff] using hemp
    have hhead : pyIsSpace ((pyStrip p).headD 'x') = false := pyStrip_headD p hne
    have hlastfl : pyIsSpace ((pyStrip p).getLastD 'x') = false := pyStrip_getLastD p hne
    by_cases hcond : 0 < ((pyStrip p).takeWhile fun c => !isOpenParen c).length ∧
        ((pyStrip p).takeWhile fun c => !isOpenParen c).length < (pyStrip p).length
    · rw [if_pos hcond] at h
      injection h with h
      subst h
      have hpre_head : ((pyStrip p).takeWhile fun c => !isOpenParen c).headD 'x' =
          (pyStrip p).headD 'x' := takeWhile_headD _ _ hcond.1
      cases hp : (pyStrip p).takeWhile fun c => !isOpenParen c with
      | nil =>
        rw [hp] at hcond
        exact absurd hcond.1 (by simp)
      | cons a t =>
        rw [hp] at hpre_head
        have ha : pyIsSpace a = false := by
          have : a = (pyStrip p).headD 'x' := by simpa using hpre_head
          rw [this]
          exact hhead
        have hsp : pyStrip (a :: t) = dropTrailing (a :: t) := by
          unfold pyStrip
          rw [List.dropWhile_cons, if_neg (by simp [ha])]
        obtain ⟨hdn, hdh⟩ := dropTrailing_ne_nil_of_head a t ha
        have hspn : pyStrip (a :: t) ≠ [] := by
          rw [hsp]
          exact hdn
        have hlast2 : pyIsSpace ((pyStrip (a :: t)).getLastD 'x') = false :=
          pyStrip_getLastD _ hspn
        have hhead2 : (pyStrip (a :: t)).headD 'x' = a := by
          rw [hsp]
          exact hdh
        cases hq : pyStrip (a :: t) with
        | nil => exact absurd hq hspn
        | cons b u =>
          rw [hq] at hhead2 hlast2
          have hbs : pyIsSpace b = false := by
            have hb : b = a := by simpa using hhead2
            rw [hb]
            exact ha
          have hco : collapseWs (b :: u) = b :: collapseWs u :=
            collapseWs_cons_not_space b u hbs
          obtain ⟨hcne, hclast⟩ := collapseWs_getLastD (b :: u) (by simp) hlast2
          refine ⟨?_, ?_, ?_⟩
          · exact hcne
          · rw [hco]
            simpa using hbs
          · intro _
            rw [hclast]
            exact hlast2
    · rw [if_neg hcond] at h
      injection h with h
      subst h
      cases hl : pyStrip p with
      | nil => exact absurd hl hne
      | cons a t =>
        rw [hl] at hhead hlastfl hcond
        have ha : pyIsSpace a = false := by simpa using hhead
        have htake : (a :: t).take 50 = a :: t.take 49 := by
          rw [show (50 : Nat) = 49 + 1 from rfl, List.take_succ_cons]
        refine ⟨?_, ?_, ?_⟩
        · rw [htake]
          simp
        · rw [htake]
          simpa using ha
        · intro hdisj
          cases hdisj with
          | inl hle =>
            rw [List.take_of_length_le hle]
            exact hlastfl
          | inr hcond2 => exact absurd hcond2 hcond

/-- Witness for the amended C9 theorem at a concrete document: the non-null
result for "  Just A Title  " is non-empty, has no leading whitespace, and
under the 50-character bound has no trailing whitespace. -/
theorem extract_name_result_trimmed_witness :
    "Just A Title".data ≠ [] ∧
    pyIsSpace ("Just A Title".data.headD 'x') = false ∧
    ((pyStrip "  Just A Title  ".data).length ≤ 50 ∨
      0 < ((pyStrip "  Just A Title  ".data).takeWhile fun c => !isOpenParen c).length ∧
        ((pyStrip "  Just A Title  ".data).takeWhile fun c => !isOpenParen c).length <
          (pyStrip "  Just A Title  ".data).length →
      pyIsSpace ("Just A Title".data.getLastD 'x') = false) :=
  extract_name_result_trimmed "  Just A Title  ".data [] "Just A Title".data (by decide)

/-! ### Claim C3: download validation -/

/-- C3 counterexample. A transfer that raises after one 100-byte chunk has
been written (a transport failure mid-stream) makes `download_image` report
failure, yet the 100-byte partial file remains on disk — refuting the claim
that on any transport or filesystem failure no partial file remains. -/
theorem download_partial_file_remains :
    (download_image ⟨true, 200, [100], true⟩ none).1 = false ∧
    (download_image ⟨true, 200, [100], true⟩ none).2 = some 100 ∧
    (100 : Nat) ≤ 2048 := by decide

/-- C3 amended. The download step accepts a file exactly when the transfer
connected with status 200, completed without a mid-stream exception, and
wrote more than 2048 bytes; a complete file at or under the threshold is
deleted from disk; any failure is reported as a `false` return rather than
an exception, but a file interrupted mid-write may remain on disk (only
connection or status failures are guaranteed to leave the disk untouched). -/
theorem download_validation (b : DownloadBehavior) (disk : Option Nat) :
    ((download_image b disk).1 = true ↔
      b.connects = true ∧ b.status = 200 ∧ b.streamRaises = false ∧
        2048 < b.chunkSizes.sum) ∧
    (b.connects = true → b.status = 200 → b.streamRaises = false →
      b.chunkSizes.sum ≤ 2048 → (download_image b disk).2 = none) ∧
    (b.connects = true → b.status = 200 → b.streamRaises = false →
      2048 < b.chunkSizes.sum → (download_image b disk).2 = some b.chunkSizes.sum) ∧
    (b.connects = false ∨ b.status ≠ 200 → (download_image b disk).2 = disk) := by
  obtain ⟨conn, st, chunks, raises⟩ := b
  unfold download_image
  cases conn <;> cases raises <;> by_cases hst : st = 200 <;>
    by_cases hsum : 2048 < chunks.sum <;>
    simp_all <;>
    first
      | omega
      | (rw [if_neg (by omega)]
         simp
         omega)

theorem targetWidthCm_some (usable : ℚ) (px : ℕ) (dpi : ℚ) :
    targetWidthCm usable (some (px, dpi)) =
      if imgWidthCm px dpi > usable * (7 / 10) then usable * (7 / 10)
      else if imgWidthCm px dpi < 5 then 5
      else imgWidthCm px dpi := rfl

/-- Witness for the amended C3 theorem: at the spec's concrete sizes, a
complete 1000-byte file is rejected and removed, and a complete 5000-byte
file is accepted. -/
theorem download_validation_witness :
    (download_image ⟨true, 200, [1000], false⟩ none).2 = none ∧
    (download_image ⟨true, 200, [5000], false⟩ none).1 = true :=
  ⟨(download_validation ⟨true, 200, [1000], false⟩ none).2.1 rfl rfl rfl (by decide),
   (download_validation ⟨true, 200, [5000], false⟩ none).1.mpr
     ⟨rfl, rfl, rfl, by decide⟩⟩

/-! ### Claim C7: image sizing -/

/-- C7. For an embedded image with obtainable metadata the compositor uses
exactly 70% of the usable page width (page width minus both margins) when
the converted pixel width exceeds that bound, exactly 5 cm when it does not
exceed the bound and is below 5 cm, and the natural width otherwise; with
unobtainable metadata it uses exactly 50% of the usable width. -/
theorem image_sizing_policy (pageW lm rm : ℚ) (px : ℕ) (dpi : ℚ) :
    (imgWidthCm px dpi > (pageW - lm - rm) * (7 / 10) →
      insert_image_width pageW lm rm (some (px, dpi)) = (pageW - lm - rm) * (7 / 10)) ∧
    (imgWidthCm px dpi ≤ (pageW - lm - rm) * (7 / 10) → imgWidthCm px dpi < 5 →
      insert_image_width pageW lm rm (some (px, dpi)) = 5) ∧
    (imgWidthCm px dpi ≤ (pageW - lm - rm) * (7 / 10) → 5 ≤ imgWidthCm px dpi →
      insert_image_width pageW lm rm (some (px, dpi)) = imgWidthCm px dpi) ∧
    insert_image_width pageW lm rm none = (pageW - lm - rm) * (1 / 2) := by
  unfold insert_image_width
  rw [targetWidthCm_some]
  refine ⟨?_, ?_, ?_, rfl⟩ <;> intros <;> split_ifs <;> first | rfl | linarith

/-- Witness for the C7 sizing theorem on the spec's examples over a usable
width of 10 cm: a 9 cm image (90% of usable width) is rescaled to exactly
7 cm, a 3 cm image to exactly 5 cm, and a 6 cm image keeps its width. -/
theorem image_sizing_policy_witness :
    insert_image_width 16 3 3 (some (9, 254 / 100)) = 7 ∧
    insert_image_width 16 3 3 (some (3, 254 / 100)) = 5 ∧
    insert_image_width 16 3 3 (some (6, 254 / 100)) = 6 ∧
    insert_image_width 16 3 3 none = 5 := by
  refine ⟨?_, ?_, ?_, ?_⟩
  · have h := (image_sizing_policy 16 3 3 9 (254 / 100)).1
      (by unfold imgWidthCm; norm_num)
    rw [h]
    norm_num
  · exact (image_sizing_policy 16 3 3 3 (254 / 100)).2.1
      (by unfold imgWidthCm; norm_num) (by unfold imgWidthCm; norm_num)
  · have h := (image_sizing_policy 16 3 3 6 (254 / 100)).2.2.1
      (by unfold imgWidthCm; norm_num) (by unfold imgWidthCm; norm_num)
    rw [h]
    unfold imgWidthCm
    norm_num
  · have h := (image_sizing_policy 16 3 3 9 (254 / 100)).2.2.2
    rw [h]
    norm_num

/-! ### Claim C8: image filename derivation -/

/-- C8. The image filename equals the person name with every character that
is not alphanumeric, underscore, hyphen, or a CJK ideograph replaced by an
underscore, followed by the fixed ".jpg" extension, for every Unicode
alphanumeric classification and every name. -/
theorem image_filename_matches_spec (isAlnum : Char → Bool) (name : List Char) :
    image_filename isAlnum name = spec_image_filename isAlnum name := by
  unfold image_filename spec_image_filename safe_name pyWordChar
  congr 1
  apply List.map_congr_left
  intro c _
  by_cases h1 : c = '_' <;> by_cases h2 : c = '-' <;>
    cases h3 : isAlnum c <;> cases h4 : cjkIdeograph c <;> simp [h1, h2, h3, h4]

/-! ### Claim C10: backup folder is not reprocessed -/

theorem globDocx_append (a b : List (List String)) :
    globDocx (a ++ b) = globDocx a ++ globDocx b := by
  simp [globDocx]

theorem globDocx_shape (paths : List (List String)) (p : List String) :
    p ∈ globDocx paths → ∃ n, p = [n] ∧ endsWithDocx n = true := by
  intro hp
  rw [globDocx, List.mem_filter] at hp
  obtain ⟨-, hmatch⟩ := hp
  match p with
  | [] => simp at hmatch
  | [n] => exact ⟨n, rfl, hmatch⟩
  | a :: b :: rest => simp at hmatch

/-- C10. Document enumeration is non-recursive, so after the backup step adds
the timestamped subfolder and the copies inside it, the enumeration the
processing loop sees is unchanged: no backup copy is ever opened, mutated,
or counted in the statistics. The hypothesis records that the backup folder
name itself never carries the ".docx" suffix. -/
theorem backup_copies_not_enumerated (paths : List (List String)) (ts : String)
    (h : endsWithDocx (backupFolderName ts) = false) :
    globDocx (backup_documents paths (backupFolderName ts)) = globDocx paths := by
  unfold backup_documents
  rw [globDocx_append, globDocx_append]
  have h1 : globDocx [[backupFolderName ts]] = [] := by
    simp [globDocx, h]
  have h2 : globDocx ((globDocx paths).map fun p => backupFolderName ts :: p) = [] := by
    rw [globDocx, List.filter_eq_nil_iff]
    intro x hx
    rw [List.mem_map] at hx
    obtain ⟨q, hq, rfl⟩ := hx
    obtain ⟨n, rfl, -⟩ := globDocx_shape paths q hq
    simp
  rw [h1, h2, List.append_nil, List.append_nil]

/-- Witness for the C10 theorem: a concrete folder with one document and one
stray file, backed up under a concrete timestamp, enumerates identically
before and after the backup. -/
theorem backup_copies_not_enumerated_witness :
    globDocx (backup_documents [["a.docx"], ["b.txt"]]
        (backupFolderName "20240101_120000")) =
      globDocx [["a.docx"], ["b.txt"]] :=
  backup_copies_not_enumerated [["a.docx"], ["b.txt"]] "20240101_120000" (by decide)

end WordTotal
